import Mathlib

/-!
Verification of the `cached-build-function` library (disk-backed memoization
engine for build pipelines).

The development shallowly embeds the library's core
(`lib/cached-build-function.js`: `_run`, `enqueue`, `flush`, `cleanUnused`,
`detectChanges`, `callRunFn`, `callAfterFn`) together with its helpers
(`utils/sha1.js`, `utils/file-fingerprint.js`,
`serialization/serialize-result.js`, `serialization/deserialize-result.js`).

Modelling conventions:
- JavaScript JSON-representable values are the inductive `JValue`
  (numbers restricted to integers, which covers every value the library's
  own code and tests produce).
- The platform JSON codec (`JSON.stringify`/`JSON.parse`) is a faithful
  round-trip on JSON-representable data, so the cache record that
  `serialize-result.js` builds and `JSON.stringify`s is modelled at the
  structure level (`StoredRec`); `JSON.stringify` is implemented at the
  string level (`jsonStringify`) where the actual text matters, namely in
  cache-key derivation.
- The file system is a partial map from path to stat metadata
  (size/mtimeMs/birthtimeMs), matching what `file-fingerprint.js` reads.
  `fs.stat` on a missing path rejects, which the model expresses with
  `Except`.
- Asynchronous execution: one call's async body runs its segments without
  interference in the sequential scenarios (`engineCall`), and the
  synchronous prefix of `_run` (key derivation, used-key recording,
  in-flight map check/insert) is split out as `callStart` for the
  concurrency claims.  The queue/flush gating is modelled as a small
  nondeterministic scheduler (`queueStep`) quantified over all schedules.
-/

set_option maxRecDepth 100000

/-! ## JSON values -/

/-- JSON-representable JavaScript values (numbers restricted to integers). -/
inductive JValue where
  | null : JValue
  | bool (b : Bool) : JValue
  | num (n : Int) : JValue
  | str (s : String) : JValue
  | arr (elems : List JValue) : JValue
  | obj (fields : List (String × JValue)) : JValue

/-- JavaScript truthiness of a `JValue` (used by `if (result.reason)` in
`serialize-result.js` and `deserialize-result.js`). -/
def jsTruthy : JValue → Bool
  | .null => false
  | .bool b => b
  | .num n => n != 0
  | .str s => s != ""
  | .arr _ => true
  | .obj _ => true

/-! ## Hex formatting and `JSON.stringify` -/

/-- Lower-case hex digit characters, as produced by Node's
`hash.digest('hex')` and used in `\u00XX` escapes. -/
def hexChar (i : Fin 16) : Char := "0123456789abcdef".data.getD i.1 '0'

/-- Hex digit of `n % 16`. -/
def hexDigit (n : Nat) : Char := hexChar ⟨n % 16, Nat.mod_lt _ (by omega)⟩

/-- Fixed-width big-endian hex rendering of a natural number. -/
def toHexFixed : Nat → Nat → List Char
  | _, 0 => []
  | v, d+1 => toHexFixed (v / 16) d ++ [hexDigit v]

/-- String escaping of `JSON.stringify` for one character. -/
def escapeChar (c : Char) : List Char :=
  if c = '"' then ['\\', '"']
  else if c = '\\' then ['\\', '\\']
  else if c = '\n' then ['\\', 'n']
  else if c = '\r' then ['\\', 'r']
  else if c = '\t' then ['\\', 't']
  else if c.toNat = 8 then ['\\', 'b']
  else if c.toNat = 12 then ['\\', 'f']
  else if c.toNat < 32 then ['\\', 'u', '0', '0', hexDigit (c.toNat / 16), hexDigit c.toNat]
  else [c]

/-- Quoted JSON string literal, as `JSON.stringify` renders strings. -/
def quoteStr (s : String) : String :=
  "\"" ++ ⟨s.data.flatMap escapeChar⟩ ++ "\""

mutual

/-- Model of `JSON.stringify` on `JValue` trees.  Used by `_run` to
canonicalize a non-string hash input before hashing
(`lib/cached-build-function.js`, `hashInput = JSON.stringify(hashInput)`). -/
def jsonStringify : JValue → String
  | .null => "null"
  | .bool true => "true"
  | .bool false => "false"
  | .num n => toString n
  | .str s => quoteStr s
  | .arr xs => "[" ++ stringifyElems xs ++ "]"
  | .obj fs => "\x7b" ++ stringifyFields fs ++ "\x7d"

/-- Comma-separated rendering of a JSON array body. -/
def stringifyElems : List JValue → String
  | [] => ""
  | [x] => jsonStringify x
  | x :: y :: xs => jsonStringify x ++ "," ++ stringifyElems (y :: xs)

/-- Comma-separated rendering of a JSON object body. -/
def stringifyFields : List (String × JValue) → String
  | [] => ""
  | [(k, v)] => quoteStr k ++ ":" ++ jsonStringify v
  | (k, v) :: f :: fs => quoteStr k ++ ":" ++ jsonStringify v ++ "," ++ stringifyFields (f :: fs)

end

/-! ## SHA-1 (`utils/sha1.js`, backed by Node `crypto`) -/

/-- Modulus for 32-bit arithmetic. -/
def pow32 : Nat := 4294967296

/-- Rotate a 32-bit word left by `n`. -/
def rotl (n : Nat) (x : Nat) : Nat :=
  ((x <<< n) % pow32) ||| (x >>> (32 - n))

/-- UTF-8 encoding of one code point (Node `hash.update(str)` uses UTF-8). -/
def utf8Bytes (n : Nat) : List Nat :=
  if n < 0x80 then [n]
  else if n < 0x800 then [0xC0 ||| (n >>> 6), 0x80 ||| (n &&& 0x3F)]
  else if n < 0x10000 then
    [0xE0 ||| (n >>> 12), 0x80 ||| ((n >>> 6) &&& 0x3F), 0x80 ||| (n &&& 0x3F)]
  else
    [0xF0 ||| (n >>> 18), 0x80 ||| ((n >>> 12) &&& 0x3F),
     0x80 ||| ((n >>> 6) &&& 0x3F), 0x80 ||| (n &&& 0x3F)]

/-- UTF-8 bytes of a string. -/
def strBytes (s : String) : List Nat :=
  s.data.flatMap (fun c => utf8Bytes c.toNat)

/-- Big-endian byte rendering of a value in the given number of bytes. -/
def beBytes (v : Nat) : Nat → List Nat
  | 0 => []
  | k+1 => beBytes (v >>> 8) k ++ [v &&& 0xFF]

/-- SHA-1 message padding. -/
def sha1Pad (msg : List Nat) : List Nat :=
  msg ++ [0x80] ++ List.replicate ((119 - msg.length % 64) % 64) 0
      ++ beBytes (msg.length * 8) 8

/-- Split into 64-byte chunks (fuel-based so the kernel can evaluate it). -/
def chunks64Aux : Nat → List Nat → List (List Nat)
  | 0, _ => []
  | _, [] => []
  | fuel+1, bs => bs.take 64 :: chunks64Aux fuel (bs.drop 64)

/-- Split a byte list into 64-byte chunks. -/
def chunks64 (bs : List Nat) : List (List Nat) := chunks64Aux bs.length bs

/-- Group bytes into big-endian 32-bit words. -/
def bytesToWords : List Nat → List Nat
  | a :: b :: c :: d :: rest => (((a * 256 + b) * 256 + c) * 256 + d) :: bytesToWords rest
  | _ => []

/-- SHA-1 message-schedule extension from 16 to 80 words. -/
def sha1Extend (w16 : Array Nat) : Array Nat :=
  (List.range 64).foldl (fun w _ =>
    w.push (rotl 1 ((w.getD (w.size - 3) 0) ^^^ (w.getD (w.size - 8) 0)
        ^^^ (w.getD (w.size - 14) 0) ^^^ (w.getD (w.size - 16) 0)))) w16

/-- SHA-1 round function. -/
def sha1F (i b c d : Nat) : Nat :=
  if i < 20 then (b &&& c) ||| ((b ^^^ 0xFFFFFFFF) &&& d)
  else if i < 40 then b ^^^ c ^^^ d
  else if i < 60 then (b &&& c) ||| (b &&& d) ||| (c &&& d)
  else b ^^^ c ^^^ d

/-- SHA-1 round constants. -/
def sha1K (i : Nat) : Nat :=
  if i < 20 then 0x5A827999 else if i < 40 then 0x6ED9EBA1
  else if i < 60 then 0x8F1BBCDC else 0xCA62C1D6

/-- SHA-1 hash state. -/
structure Sha1St where
  a0 : Nat
  a1 : Nat
  a2 : Nat
  a3 : Nat
  a4 : Nat

/-- SHA-1 compression of one 64-byte chunk. -/
def sha1Compress (st : Sha1St) (chunk : List Nat) : Sha1St :=
  let w := sha1Extend (Array.mk (bytesToWords chunk))
  let fin := (List.range 80).foldl (fun (t : Nat × Nat × Nat × Nat × Nat) i =>
    let tmp := (rotl 5 t.1 + sha1F i t.2.1 t.2.2.1 t.2.2.2.1 + t.2.2.2.2
        + sha1K i + w.getD i 0) % pow32
    (tmp, t.1, rotl 30 t.2.1, t.2.2.1, t.2.2.2.1)) (st.a0, st.a1, st.a2, st.a3, st.a4)
  ⟨(st.a0 + fin.1) % pow32, (st.a1 + fin.2.1) % pow32, (st.a2 + fin.2.2.1) % pow32,
   (st.a3 + fin.2.2.2.1) % pow32, (st.a4 + fin.2.2.2.2) % pow32⟩

/-- Hex rendering of a SHA-1 state (`hash.digest('hex')`): 40 lower-case
hex characters. -/
def sha1Hex (st : Sha1St) : List Char :=
  toHexFixed st.a0 8 ++ toHexFixed st.a1 8 ++ toHexFixed st.a2 8
    ++ toHexFixed st.a3 8 ++ toHexFixed st.a4 8

/-- Model of `utils/sha1.js`: SHA-1 hex digest of the UTF-8 bytes of the
input string (validated against the standard SHA-1 test vectors). -/
def sha1 (input : String) : String :=
  let st0 : Sha1St := ⟨0x67452301, 0xEFCDAB89, 0x98BADCFE, 0x10325476, 0xC3D2E1F0⟩
  ⟨sha1Hex ((chunks64 (sha1Pad (strBytes input))).foldl sha1Compress st0)⟩

/-! ## Cache-key derivation (`_run`, `lib/cached-build-function.js`) -/

/-- Format version baked into every cache key (`LIBRARY_VERSION = 7`). -/
def LIBRARY_VERSION : Nat := 7

/-- A user-supplied `version`: the source checks
`typeof version === 'string' || typeof version === 'number'`. -/
inductive JSVersion where
  | vstr (s : String) : JSVersion
  | vnum (n : Int) : JSVersion

/-- JavaScript string coercion of a version value. -/
def versionToString : JSVersion → String
  | .vstr s => s
  | .vnum n => toString n

/-- Canonicalized hash input: `_run` leaves a string hash input untouched and
`JSON.stringify`s everything else
(`if (typeof hashInput !== 'string') hashInput = JSON.stringify(hashInput)`). -/
def hashInputToString : JValue → String
  | .str s => s
  | v => jsonStringify v

/-- Cache-key derivation from `_run`:
`sha1(LIBRARY_VERSION + ',' + version + ',' + hashInput)`. -/
def deriveKeyOfInput (version : JSVersion) (hashInput : JValue) : String :=
  sha1 (toString LIBRARY_VERSION ++ "," ++ versionToString version ++ ","
      ++ hashInputToString hashInput)

/-! ## File system and fingerprinting (`utils/file-fingerprint.js`) -/

/-- File metadata read by `fs.stat` (`stats.size`, `stats.mtimeMs`,
`stats.birthtimeMs`). -/
structure StatInfo where
  size : Nat
  mtimeMs : Nat
  birthtimeMs : Nat
deriving DecidableEq

/-- A file system maps a path to stat metadata when the file exists. -/
def FS := String → Option StatInfo

/-- Model of `fileFingerprint(path)`: concatenates size and timestamps into a
comparison token.  `fs.stat` rejects on a missing file, so the call is
fallible (`Except`, collapsing the ENOENT error value to `Unit`). -/
def fileFingerprint (fs : FS) (path : String) : Except Unit String :=
  match fs path with
  | some st =>
    .ok (toString st.size ++ "," ++ toString st.mtimeMs ++ "," ++ toString st.birthtimeMs)
  | none => .error ()

/-- One `{path, fingerprint}` pair recorded in a cache entry. -/
structure ObservedFile where
  path : String
  fingerprint : String
deriving DecidableEq

/-- Model of `detectChanges(observedFiles)`: `changed` becomes true iff some
live fingerprint differs from the recorded one; `Promise.all` rejects the
whole check as soon as any `fileFingerprint` call rejects (missing file),
and neither the iteration order nor the `changed` flag affects which of the
two happens, so a left fold is an exact model. -/
def detectChanges (fs : FS) : List ObservedFile → Except Unit Bool
  | [] => .ok false
  | f :: rest =>
    match fileFingerprint fs f.path with
    | .error e => .error e
    | .ok fp =>
      match detectChanges fs rest with
      | .error e => .error e
      | .ok changed => .ok (changed || (fp != f.fingerprint))

/-! ## Result records and the codec
(`serialization/serialize-result.js`, `serialization/deserialize-result.js`) -/

/-- A JavaScript `Error` object: standard non-enumerable `name`/`message`
(plus optional `stack`) and custom own enumerable properties. -/
structure JSErr where
  name : String
  message : String
  stack : Option String
  props : List (String × JValue)

/-- A rejection reason: either a structured `Error` or an arbitrary value. -/
inductive JSReason where
  | jsErr (e : JSErr) : JSReason
  | jsVal (v : JValue) : JSReason

/-- Promise-style result state. -/
inductive RState where
  | fulfilled
  | rejected
deriving DecidableEq

/-- The in-memory result record `{ value, reason, state, observedFiles }`
built by `callRunFn`/`callAfterFn` and restored by `deserializeResult`
(`value`/`reason` are `undefined`, i.e. `none`, when not applicable). -/
structure ResRec where
  value : Option JValue
  reason : Option JSReason
  state : RState
  observedFiles : List ObservedFile

/-- Model of the `serialize-error` package (v2): copies the custom own
enumerable properties, then `name`, `message` and — when present — `stack`
into a plain JSON object. -/
def serializeError (e : JSErr) : JValue :=
  .obj (e.props ++ [("name", .str e.name), ("message", .str e.message)]
    ++ (match e.stack with | some s => [("stack", .str s)] | none => []))

/-- JavaScript truthiness of a raw reason (`Error` objects are truthy). -/
def reasonTruthy : JSReason → Bool
  | .jsErr _ => true
  | .jsVal v => jsTruthy v

/-- The wrapped reason `{ isError, data }` stored inside a cache record. -/
structure SReason where
  isError : Bool
  data : JValue

/-- The on-disk cache record, i.e. the JSON object
`{ value, reason, state, observedFiles }` that `serializeResult` feeds to
`JSON.stringify` (the platform JSON codec round-trips it exactly;
`undefined`-valued fields are dropped, which `Option` models). -/
structure StoredRec where
  value : Option JValue
  reason : Option SReason
  state : RState
  observedFiles : List ObservedFile

/-- Model of `serializeResult(result)`: wraps a truthy `reason` as
`{ isError: true, data: serializeError(reason) }` for `Error` instances and
`{ isError: false, data: reason }` otherwise; a falsy (or absent) `reason`
fails the `if (result.reason)` guard and is not stored at all. -/
def serializeResult (result : ResRec) : StoredRec :=
  { value := result.value
    reason :=
      match result.reason with
      | some r =>
        if reasonTruthy r then
          some (match r with
            | .jsErr e => { isError := true, data := serializeError e }
            | .jsVal v => { isError := false, data := v })
        else none
      | none => none
    state := result.state
    observedFiles := result.observedFiles }

/-- Overwrite-or-append assignment on an assoc list, the effect of one
property assignment performed by `Object.assign`. -/
def setProp (ps : List (String × JValue)) (k : String) (v : JValue) :
    List (String × JValue) :=
  if ps.any (fun p => p.1 == k) then ps.map (fun p => if p.1 == k then (k, v) else p)
  else ps ++ [(k, v)]

/-- String test used when rebuilding an `Error` from serialized data. -/
def strVal : JValue → Option String
  | .str s => some s
  | _ => none

/-- Assignment of one serialized field onto the `Error` object being rebuilt
by `Object.assign(new Error(), { stack: undefined }, data)`.  The serializer
only ever emits string-valued `name`/`message`/`stack`, so non-string values
under those keys (unreachable from `serializeResult`) are kept as plain
properties, which keeps the model total. -/
def assignField (e : JSErr) (f : String × JValue) : JSErr :=
  if f.1 = "name" then
    match strVal f.2 with
    | some s => { e with name := s }
    | none => { e with props := setProp e.props f.1 f.2 }
  else if f.1 = "message" then
    match strVal f.2 with
    | some s => { e with message := s }
    | none => { e with props := setProp e.props f.1 f.2 }
  else if f.1 = "stack" then
    match strVal f.2 with
    | some s => { e with stack := some s }
    | none => { e with props := setProp e.props f.1 f.2 }
  else { e with props := setProp e.props f.1 f.2 }

/-- Model of `Object.assign(new Error(), { stack: undefined }, data)`: the
fresh `Error` starts as `name = "Error"`, `message = ""`; the explicit
`{ stack: undefined }` source erases the fresh capture stack, after which the
fields of `data` are assigned in order — so a `stack` stored in `data`
overwrites the `undefined` again. -/
def restoreError (data : JValue) : JSErr :=
  let base : JSErr := { name := "Error", message := "", stack := none, props := [] }
  match data with
  | .obj fields => fields.foldl assignField base
  | _ => base

/-- Model of `deserializeResult(text)`: parses the record and unwraps the
reason (`isError` selects `Error` reconstruction). -/
def deserializeResult (text : StoredRec) : ResRec :=
  { value := text.value
    reason :=
      match text.reason with
      | some sr =>
        some (if sr.isError then .jsErr (restoreError sr.data) else .jsVal sr.data)
      | none => none
    state := text.state
    observedFiles := text.observedFiles }

/-! ## Invoking the user computation (`callRunFn`, `callAfterFn`) -/

/-- Model of the capability `observe(path)` handed to `run()`: it pushes a
fingerprint lookup for `path` and returns `path` unchanged. -/
def observeCap (recorded : List String) (path : String) : String × List String :=
  (path, recorded ++ [path])

/-- Behaviour of one invocation of the user-supplied `run()`: the paths it
passes to `observe` and its outcome (returned value or thrown reason). -/
structure RunBehavior where
  observed : List String
  outcome : Except JSReason JValue

/-- Fingerprints collected for the observed paths:
`fileFingerprint(path).then(fingerprint => ({path, fingerprint}))
.catch(() => {})` resolves to `undefined` for a missing file, and
`.filter(x => x)` then drops it — modelled by `filterMap`. -/
def mkObservedFiles (fs : FS) (paths : List String) : List ObservedFile :=
  paths.filterMap (fun p =>
    match fileFingerprint fs p with
    | .ok fp => some { path := p, fingerprint := fp }
    | .error _ => none)

/-- Model of `callRunFn(runFn, args, path)`: runs the user computation,
captures a throw as `state: 'rejected'`, and collects the observed files. -/
def callRunFn (runSpec : List JValue → FS → RunBehavior) (fs : FS)
    (args : List JValue) : ResRec :=
  let b := runSpec args fs
  let observedFiles := mkObservedFiles fs b.observed
  match b.outcome with
  | .ok v => { value := some v, reason := none, state := .fulfilled, observedFiles }
  | .error r => { value := none, reason := some r, state := .rejected, observedFiles }

/-- Model of `callAfterFn(afterFn, args, path, inputValue)`: runs the
user-supplied `after()` with `this.value = inputValue` and captures its
outcome (the source record has no `observedFiles`; the field is unused
downstream and set to `[]`). -/
def callAfterFn (afterFn : List JValue → Option JValue → Except JSReason (Option JValue))
    (args : List JValue) (inputValue : Option JValue) : ResRec :=
  match afterFn args inputValue with
  | .ok v => { value := v, reason := none, state := .fulfilled, observedFiles := [] }
  | .error r => { value := none, reason := some r, state := .rejected, observedFiles := [] }

/-! ## The engine (`_run` and instance state) -/

/-- Association-list get, modelling `Map.get` / keyed file lookup. -/
def alGet {κ α : Type} [DecidableEq κ] : List (κ × α) → κ → Option α
  | [], _ => none
  | p :: rest, k => if p.1 = k then some p.2 else alGet rest k

/-- Association-list set, modelling `Map.set` / an atomic file write. -/
def alSet {κ α : Type} [DecidableEq κ] (l : List (κ × α)) (k : κ) (v : α) :
    List (κ × α) :=
  (k, v) :: l.filter (fun p => decide (p.1 ≠ k))

/-- Association-list delete, modelling `Map.delete`. -/
def alDel {κ α : Type} [DecidableEq κ] (l : List (κ × α)) (k : κ) : List (κ × α) :=
  l.filter (fun p => decide (p.1 ≠ k))

/-- Set insertion for the used-key set (`this._usedCacheKeys.add(cacheKey)`). -/
def addKey (l : List String) (k : String) : List String :=
  if l.contains k then l else k :: l

/-- A settled call: `result.state === 'fulfilled' ? result.value :
Promise.reject(result.reason)`. -/
inductive CallSettle where
  | sFulfilled (v : Option JValue)
  | sRejected (r : Option JSReason)

/-- An exceptional rejection of the async body itself, as opposed to a
captured `run()`/`after()` rejection: the stat error escaping
`detectChanges`, or the `writeFileAtomic` failure surfacing at
`await wroteToCache`. -/
inductive EngineCrash where
  | statCrash
  | writeCrash
deriving DecidableEq

/-- Outcome a caller observes from the returned promise. -/
abbrev Outcome := Except EngineCrash CallSettle

/-- Per-instance engine state: the Used-Key Set
(`this._usedCacheKeys`), the In-Flight Registry (`this._currentlyRunningMap`,
key to promise handle), the settlement state of every promise handle this
instance created, and the next fresh handle. -/
structure Engine where
  usedCacheKeys : List String := []
  inFlight : List (String × Nat) := []
  settledMap : List (Nat × Outcome) := []
  nextH : Nat := 0

/-- Settlement of a result record, as performed at the end of `_run`:
`result.state === 'fulfilled' ? result.value : Promise.reject(result.reason)`. -/
def settleOf (r : ResRec) : CallSettle :=
  match r.state with
  | .fulfilled => .sFulfilled r.value
  | .rejected => .sRejected r.reason

/-- User-facing configuration of one `CachedBuildFunction` subclass: the
static `version`, the optional static `cacheKey` selector, the abstract
`run()` (as a `RunBehavior` per `(args, fs)`), the optional `after()`, and
the static `outputConsistency` flag (default `true` in the source). -/
structure BuildClass where
  version : JSVersion
  cacheKeyFn : Option (List JValue → JValue)
  runSpec : List JValue → FS → RunBehavior
  afterFn : Option (List JValue → Option JValue → Except JSReason (Option JValue))
  outputConsistency : Bool

/-- Cache-key computation at the start of `_run`: selects the hash input via
the optional static `cacheKey` (defaulting to the argument array), then
derives the key. -/
def deriveCacheKey (cls : BuildClass) (args : List JValue) : String :=
  deriveKeyOfInput cls.version
    (match cls.cacheKeyFn with | some f => f args | none => .arr args)

/-- Observable output of one async body execution: the settlement, the
`checkedCache` event payload (`none` when the body crashed before emitting),
and whether `run()` was invoked. -/
structure BodyOut where
  outcome : Outcome
  checkedCache : Option Bool
  ranRun : Bool

/-- Result of one async body execution together with its effects: the cache
store afterwards and whether `_currentlyRunningMap.delete(cacheKey)` was
reached. -/
structure BodyRes where
  out : BodyOut
  store : List (String × StoredRec)
  inFlightDeleted : Bool

/-- The world outside one engine instance: the live file system, the cache
folder contents keyed by cache key, and whether the atomic record write
(`writeFileAtomic`) succeeds. -/
structure World where
  fs : FS
  store : List (String × StoredRec)
  writeOk : Bool

/-- The cache-miss tail of `_run`'s async body: invoke `run()` via
`callRunFn`, serialize the result, start the atomic write, re-decode the
serialized text when `outputConsistency` is on, apply `after()` to a
fulfilled result, then `await wroteToCache`.  A write failure rejects the
body at that `await`, *before* the `delete`, so the in-flight entry stays. -/
def missBody (cls : BuildClass) (w : World) (key : String) (args : List JValue) : BodyRes :=
  let rr := callRunFn cls.runSpec w.fs args
  let text := serializeResult rr
  let store1 := if w.writeOk then alSet w.store key text else w.store
  let r1 := if cls.outputConsistency then deserializeResult text else rr
  let r2 : ResRec :=
    match cls.afterFn, r1.state with
    | some f, .fulfilled => callAfterFn f args r1.value
    | _, _ => r1
  if w.writeOk then ⟨⟨.ok (settleOf r2), some false, true⟩, store1, true⟩
  else ⟨⟨.error .writeCrash, some false, true⟩, store1, false⟩

/-- The async body of `_run` after the in-flight check: read the record for
the key, validate its observed files (a stat rejection inside
`detectChanges` escapes and rejects the body before the `checkedCache` event
and before the `delete`), and branch into the hit path (`after()` on a
fulfilled record, then delete and settle) or the miss path. -/
def runBody (cls : BuildClass) (w : World) (key : String) (args : List JValue) : BodyRes :=
  match alGet w.store key with
  | some text =>
    let r := deserializeResult text
    match detectChanges w.fs r.observedFiles with
    | .error _ => ⟨⟨.error .statCrash, none, false⟩, w.store, false⟩
    | .ok changed =>
      if changed then missBody cls w key args
      else
        let final : ResRec :=
          match cls.afterFn, r.state with
          | some f, .fulfilled => callAfterFn f args r.value
          | _, _ => r
        ⟨⟨.ok (settleOf final), some true, false⟩, w.store, true⟩
  | none => missBody cls w key args

/-- Result of the synchronous prefix of `_run`: either a fresh handle whose
body is about to run, or the existing in-flight handle returned as-is. -/
inductive StartRes where
  | fresh (h : Nat)
  | existing (h : Nat)

/-- Whether a started call will execute its own async body. -/
def spawnsBody : StartRes → Bool
  | .fresh _ => true
  | .existing _ => false

/-- The promise handle a start returns to the caller. -/
def startHandle : StartRes → Nat
  | .fresh h => h
  | .existing h => h

/-- The synchronous prefix of `_run`: derive the cache key, add it to the
Used-Key Set, and consult the In-Flight Registry — returning the existing
promise if one is registered, otherwise registering a fresh handle
(`this._currentlyRunningMap.set(cacheKey, promise)` runs synchronously
before `_run` returns). -/
def callStart (cls : BuildClass) (eng : Engine) (args : List JValue) :
    StartRes × String × Engine :=
  let key := deriveCacheKey cls args
  let eng1 := { eng with usedCacheKeys := addKey eng.usedCacheKeys key }
  match alGet eng1.inFlight key with
  | some h => (.existing h, key, eng1)
  | none =>
    (.fresh eng1.nextH, key,
     { eng1 with inFlight := (key, eng1.nextH) :: eng1.inFlight, nextH := eng1.nextH + 1 })

/-- What one sequential call observes: the settlement of the promise it got
(`none` only if it was handed a still-pending handle, which cannot happen in
sequential use), the `checkedCache` payload of a body it spawned, whether it
invoked `run()`, and whether it was handed an already-in-flight promise. -/
structure CallRes where
  outcome : Option Outcome
  checkedCache : Option Bool
  ranRun : Bool
  sharedInFlight : Bool

/-- One complete sequential call: the synchronous prefix followed — for a
fresh handle — by the whole async body (no other call interleaves), with the
registry and settlement bookkeeping applied. -/
def engineCall (cls : BuildClass) (w : World) (eng : Engine) (args : List JValue) :
    CallRes × Engine × List (String × StoredRec) :=
  match callStart cls eng args with
  | (.existing h, _, eng1) =>
    (⟨alGet eng1.settledMap h, none, false, true⟩, eng1, w.store)
  | (.fresh h, key, eng1) =>
    let b := runBody cls w key args
    let eng2 : Engine :=
      { eng1 with
        inFlight := if b.inFlightDeleted then alDel eng1.inFlight key else eng1.inFlight
        settledMap := (h, b.out.outcome) :: eng1.settledMap }
    (⟨some b.out.outcome, b.out.checkedCache, b.out.ranRun, false⟩, eng2, b.store)

/-! ## Queue mode (`enqueue` / `flush`)

Each enqueued item runs `_run(args, blockRun)`: its body checks the cache,
emits its `checkedCache` event, and then `await blockRun` withholds the rest
(the `run()` call on a miss) until `flush` resolves the gate.  `flush`'s
continuation fires once every item's check signal has resolved: it emits one
aggregate `checkedCache` event and then releases every gate.  The scheduler
below quantifies over all interleavings of these continuations; the cache
outcome of item `i` is abstracted as `hits[i]` (items are independent calls
with distinct keys). -/

/-- Progress of one enqueued item's body. -/
inductive ItemPhase where
  | toCheck
  | awaitGate
  | done
deriving DecidableEq

/-- Observable events of a queue execution: an item's `checkedCache`
emission, the aggregate `checkedCache` emission of `flush`, the gate release
loop of `flush`, and the start of a withheld `run()`. -/
inductive QEvent where
  | checked (i : Nat) (hit : Bool)
  | flushEmit (count cacheHitCount cacheMissCount : Nat)
  | released
  | runStart (i : Nat)
deriving DecidableEq

/-- Scheduler state for one queue/flush round: the phase of the item at each
queue index, whether flush's continuation has run, and the event trace so
far. -/
structure QState where
  phases : Nat → ItemPhase
  flushFired : Bool
  trace : List QEvent

/-- Number of cache hits in the per-item check results
(`cacheResults.filter(x => x).length`). -/
def countHits (hits : List Bool) : Nat := (hits.filter id).length

/-- A scheduling choice: advance item `i`'s continuation or flush's. -/
inductive QChoice where
  | item (i : Nat)
  | flushTask

/-- Initial state: every enqueued item still has to perform its check. -/
def qInit : QState :=
  ⟨fun _ => .toCheck, false, []⟩

/-- One scheduler step.  An item's first segment performs its cache check
and emits its `checkedCache` event; its second segment is enabled only once
flush has released the gates and — on a miss — starts the withheld `run()`.
Flush's continuation is enabled once every item has emitted its check (the
`Promise.all` dependency); it emits the aggregate event and releases the
gates in the same synchronous segment, in that order.  Disabled or
out-of-range choices leave the state unchanged. -/
def queueStep (hits : List Bool) (st : QState) : QChoice → QState
  | .item i =>
    if i < hits.length then
      match st.phases i with
      | .toCheck =>
        { phases := fun j => if j = i then .awaitGate else st.phases j
          flushFired := st.flushFired
          trace := st.trace ++ [.checked i (hits.getD i false)] }
      | .awaitGate =>
        if st.flushFired then
          { phases := fun j => if j = i then .done else st.phases j
            flushFired := st.flushFired
            trace := st.trace ++ (if hits.getD i false then [] else [.runStart i]) }
        else st
      | .done => st
    else st
  | .flushTask =>
    if ¬st.flushFired ∧ ∀ j < hits.length, st.phases j ≠ .toCheck then
      { phases := st.phases
        flushFired := true
        trace := st.trace ++ [.flushEmit hits.length (countHits hits)
            (hits.length - countHits hits), .released] }
    else st

/-- Run the queue scheduler under an arbitrary schedule. -/
def queueExec (hits : List Bool) (cs : List QChoice) : QState :=
  cs.foldl (queueStep hits) qInit

/-! ## Cleanup (`cleanUnused`) -/

/-- Key part of an on-disk entry name: the source splits the name at dots
and dashes and keeps the first segment, i.e. the text before the first `.`
or `-` character. -/
def entryKeyOf (entry : String) : String :=
  ⟨entry.data.takeWhile (fun c => !(c == '.' || c == '-'))⟩

/-- Entries `cleanUnused()` deletes: those whose key part is not in the
Used-Key Set (`this._usedCacheKeys.has(...)` fails). -/
def cleanUnusedRemoved (usedCacheKeys : List String) (listing : List String) : List String :=
  listing.filter (fun e => !(usedCacheKeys.contains (entryKeyOf e)))

/-- Entries that survive `cleanUnused()`. -/
def cleanUnusedKept (usedCacheKeys : List String) (listing : List String) : List String :=
  listing.filter (fun e => usedCacheKeys.contains (entryKeyOf e))

/-- File name of the result record for a key (`path + '.json'`, relative to
the cache folder). -/
def recordFileName (key : String) : String := key ++ ".json"

/-- File name of an auxiliary artifact (`this.cachePath(name)` yields
`path + '-' + name`, relative to the cache folder). -/
def artifactFileName (key : String) (name : String) : String := key ++ "-" ++ name

/-! ## Concrete scenarios and invariant definitions

The remaining definitions set up the concrete worlds, classes and scenario
shorthands used by the theorems below, plus the scheduler invariant. -/

/-- First call of the two-call scenario. -/
def callOnce (cls : BuildClass) (w : World) (args : List JValue) :
    CallRes × Engine × List (String × StoredRec) :=
  engineCall cls w {} args

/-- Second call of the two-call scenario. -/
def callAgain (cls : BuildClass) (w : World) (args : List JValue) :
    CallRes × Engine × List (String × StoredRec) :=
  engineCall cls { w with store := (callOnce cls w args).2.2 }
    (callOnce cls w args).2.1 args

/-- A minimal concrete build class for concrete scenarios: version 1, no key
selector, `run()` observes nothing and returns `7`, no `after()`. -/
def clsAdd : BuildClass :=
  { version := .vnum 1
    cacheKeyFn := none
    runSpec := fun _ _ => { observed := [], outcome := .ok (.num 7) }
    afterFn := none
    outputConsistency := true }

/-- The empty file system (every path is missing). -/
def fsNone : FS := fun _ => none

/-- An empty world: no files, empty cache, writes succeed. -/
def wEmpty : World := { fs := fsNone, store := [], writeOk := true }

/-- A stored cache record whose observed file is absent from `fsNone`. -/
def vanishedRec : StoredRec :=
  { value := some (.num 5), reason := none, state := .fulfilled
    observedFiles := [{ path := "a.txt", fingerprint := "1,2,3" }] }

/-- World in which the cache holds `vanishedRec` under the key the call will
derive, but the observed file has vanished. -/
def vanishedWorld : World :=
  { fs := fsNone, store := [(deriveCacheKey clsAdd [.num 1], vanishedRec)], writeOk := true }

/-- World whose atomic record write fails (e.g. disk full). -/
def failWriteWorld : World := { fs := fsNone, store := [], writeOk := false }

/-- Build class whose `run()` observes the (possibly missing) file
`f.txt` and fulfills with `5`. -/
def obsRun : BuildClass :=
  { version := .vnum 1
    cacheKeyFn := none
    runSpec := fun _ _ => { observed := ["f.txt"], outcome := .ok (.num 5) }
    afterFn := none
    outputConsistency := true }

/-- File system in which `f.txt` exists. -/
def fsWithF : FS := fun p => if p = "f.txt" then some ⟨1, 2, 3⟩ else none

/-- First call of the reappearing-file scenario: `f.txt` does not exist. -/
def obsCall1 : CallRes × Engine × List (String × StoredRec) :=
  engineCall obsRun { fs := fsNone, store := [], writeOk := true } {} []

/-- World for the second call: `f.txt` has reappeared; the store and engine
come from the first call. -/
def obsWorld2 : World := { fs := fsWithF, store := obsCall1.2.2, writeOk := true }

/-- Second call of the reappearing-file scenario. -/
def obsCall2 : CallRes × Engine × List (String × StoredRec) :=
  engineCall obsRun obsWorld2 obsCall1.2.1 []

/-- Concrete rejected record whose reason is an `Error` carrying a stack. -/
def errWithStack : JSErr :=
  { name := "Error", message := "boom", stack := some "trace-line", props := [] }

/-- Rejected result whose reason is `errWithStack`. -/
def rejectedErrRec : ResRec :=
  { value := none, reason := some (.jsErr errWithStack), state := .rejected
    observedFiles := [] }

/-- Rejected result whose reason is the falsy value `0`. -/
def rejectedZeroRec : ResRec :=
  { value := none, reason := some (.jsVal (.num 0)), state := .rejected
    observedFiles := [] }

/-- A structured error with a custom property and no stack. -/
def errNoStack : JSErr :=
  { name := "TypeError", message := "m", stack := none, props := [("code", .num 42)] }

/-- Rejected result whose reason is `errNoStack`. -/
def rejectedCodeRec : ResRec :=
  { value := none, reason := some (.jsErr errNoStack), state := .rejected
    observedFiles := [] }

/-- Rejected result whose reason is the truthy string `"why"`. -/
def rejectedWhyRec : ResRec :=
  { value := none, reason := some (.jsVal (.str "why")), state := .rejected
    observedFiles := [] }

/-- Canonical aggregate `checkedCache` payload for a queue of `hits`. -/
def flushPayload (hits : List Bool) : QEvent :=
  .flushEmit hits.length (countHits hits) (hits.length - countHits hits)

/-- Shape invariant of every reachable scheduler state. -/
def QShape (hits : List Bool) (st : QState) : Prop :=
  ∃ cks runs,
    st.trace = cks ++ (if st.flushFired then
      flushPayload hits :: QEvent.released :: runs else []) ∧
    (∀ ev ∈ cks, ∃ i, i < hits.length ∧ ev = QEvent.checked i (hits.getD i false)) ∧
    (∀ ev ∈ runs, ∃ i, ev = QEvent.runStart i ∧ hits.getD i false = false) ∧
    (∀ i, i < hits.length →
      (st.phases i = ItemPhase.toCheck ↔ QEvent.checked i (hits.getD i false) ∉ cks)) ∧
    (st.flushFired = true → ∀ i, i < hits.length → st.phases i ≠ ItemPhase.toCheck)

/-- Predicate: a character is not one of the entry-name separators. -/
def notSep (c : Char) : Bool := !(c == '.' || c == '-')

/-- Build class whose `cacheKey` selector returns the number `1`. -/
def cls10num : BuildClass :=
  { version := .vnum 1
    cacheKeyFn := some (fun _ => .num 1)
    runSpec := fun _ _ => { observed := [], outcome := .ok .null }
    afterFn := none
    outputConsistency := true }

/-- Build class whose `cacheKey` selector returns the string `"1"`. -/
def cls10str : BuildClass :=
  { version := .vnum 1
    cacheKeyFn := some (fun _ => .str "1")
    runSpec := fun _ _ => { observed := [], outcome := .ok .null }
    afterFn := none
    outputConsistency := true }

/-! ## Helper lemmas -/

lemma alGet_alSet_self {κ α : Type} [DecidableEq κ] (l : List (κ × α)) (k : κ) (v : α) :
    alGet (alSet l k v) k = some v := by
  simp [alGet, alSet]

lemma detectChanges_mkObservedFiles (fs : FS) (ps : List String) :
    detectChanges fs (mkObservedFiles fs ps) = .ok false := by
  induction ps with
  | nil => rfl
  | cons p ps ih =>
    cases h : fileFingerprint fs p with
    | ok fp =>
      simp [mkObservedFiles, List.filterMap_cons, h, detectChanges] at *
      simp [h, ih]
    | error e =>
      simp [mkObservedFiles, List.filterMap_cons, h] at *
      simp [ih]

lemma observedFiles_roundtrip (r : ResRec) :
    (deserializeResult (serializeResult r)).observedFiles = r.observedFiles := rfl

lemma value_roundtrip (r : ResRec) :
    (deserializeResult (serializeResult r)).value = r.value := rfl

lemma state_roundtrip (r : ResRec) :
    (deserializeResult (serializeResult r)).state = r.state := rfl

lemma callRunFn_observedFiles (rs : List JValue → FS → RunBehavior) (fs : FS)
    (args : List JValue) :
    (callRunFn rs fs args).observedFiles = mkObservedFiles fs (rs args fs).observed := by
  unfold callRunFn
  cases h : (rs args fs).outcome <;> simp [h]

/-- Lemma: the miss tail always invokes `run()`, whether or not the
persistence step succeeds. -/
lemma missBody_ranRun (cls : BuildClass) (w : World) (key : String) (args : List JValue) :
    (missBody cls w key args).out.ranRun = true := by
  unfold missBody
  cases hw : w.writeOk <;> simp [hw]

lemma setProp_append (ps : List (String × JValue)) (k : String) (v : JValue)
    (h : ∀ q ∈ ps, q.1 ≠ k) : setProp ps k v = ps ++ [(k, v)] := by
  have h' : ps.any (fun p => p.1 == k) = false := by
    rw [List.any_eq_false]
    intro q hq
    simpa using h q hq
  simp [setProp, h']

lemma foldl_assignField_props (ps : List (String × JValue)) (e : JSErr)
    (hres : ∀ q ∈ ps, q.1 ≠ "name" ∧ q.1 ≠ "message" ∧ q.1 ≠ "stack")
    (hfresh : ∀ q ∈ ps, ∀ r ∈ e.props, r.1 ≠ q.1)
    (hnd : (ps.map Prod.fst).Nodup) :
    ps.foldl assignField e = { e with props := e.props ++ ps } := by
  induction ps generalizing e with
  | nil => simp
  | cons q rest ih =>
    obtain ⟨k, v⟩ := q
    obtain ⟨hn, hm, hs⟩ := hres (k, v) (by simp)
    have hsp : setProp e.props k v = e.props ++ [(k, v)] :=
      setProp_append _ _ _ (fun r hr => hfresh (k, v) (by simp) r hr)
    have hstep : assignField e (k, v) = { e with props := e.props ++ [(k, v)] } := by
      simp only [assignField]
      rw [if_neg hn, if_neg hm, if_neg hs, hsp]
    rw [List.foldl_cons, hstep]
    rw [ih { e with props := e.props ++ [(k, v)] }
      (fun q' hq' => hres q' (by simp [hq']))
      (fun q' hq' r hr => by
        simp only [List.mem_append, List.mem_singleton] at hr
        rcases hr with hr | hr
        · exact hfresh q' (by simp [hq']) r hr
        · subst hr
          simp only [List.map_cons, List.nodup_cons] at hnd
          intro hc
          exact hnd.1 (by rw [show k = q'.1 from hc]; exact List.mem_map_of_mem Prod.fst hq'))
      (by simp only [List.map_cons, List.nodup_cons] at hnd; exact hnd.2)]
    simp

lemma restoreError_serializeError (e : JSErr)
    (hres : ∀ q ∈ e.props, q.1 ≠ "name" ∧ q.1 ≠ "message" ∧ q.1 ≠ "stack")
    (hnd : (e.props.map Prod.fst).Nodup) :
    restoreError (serializeError e) = e := by
  cases he : e.stack with
  | none =>
    show List.foldl assignField ⟨"Error", "", none, []⟩
      (e.props ++ [("name", JValue.str e.name), ("message", JValue.str e.message)]
        ++ (match e.stack with | some s => [("stack", JValue.str s)] | none => [])) = e
    rw [he]
    rw [List.foldl_append, List.foldl_append]
    rw [foldl_assignField_props e.props _ hres (by intro q hq r hr; cases hr) hnd]
    simp only [List.foldl_cons, List.foldl_nil]
    simp [assignField, strVal]
    cases e
    simp_all
  | some st =>
    show List.foldl assignField ⟨"Error", "", none, []⟩
      (e.props ++ [("name", JValue.str e.name), ("message", JValue.str e.message)]
        ++ (match e.stack with | some s => [("stack", JValue.str s)] | none => [])) = e
    rw [he]
    rw [List.foldl_append, List.foldl_append]
    rw [foldl_assignField_props e.props _ hres (by intro q hq r hr; cases hr) hnd]
    simp only [List.foldl_cons, List.foldl_nil]
    simp [assignField, strVal]
    cases e
    simp_all

lemma qInit_shape (hits : List Bool) : QShape hits qInit := by
  refine ⟨[], [], by simp [qInit], by simp, by simp, ?_, by simp [qInit]⟩
  intro i hi
  simp [qInit]

lemma queueStep_shape (hits : List Bool) (st : QState) (c : QChoice)
    (h : QShape hits st) : QShape hits (queueStep hits st c) := by
  obtain ⟨cks, runs, htr, hcks, hruns, hlink, hfin⟩ := h
  cases c with
  | item i =>
    by_cases hi : i < hits.length
    · cases hph : st.phases i with
      | toCheck =>
        have hff : st.flushFired = false := by
          cases hq : st.flushFired
          · rfl
          · exact absurd hph (hfin hq i hi)
        refine ⟨cks ++ [QEvent.checked i (hits.getD i false)], runs, ?_, ?_, hruns, ?_, ?_⟩
        · simp [queueStep, hi, hph, htr, hff]
        · intro ev hev
          rcases List.mem_append.mp hev with h1 | h1
          · exact hcks ev h1
          · rw [List.mem_singleton.mp h1]
            exact ⟨i, hi, rfl⟩
        · intro j hj
          simp only [queueStep, hi, hph, if_true]
          by_cases hji : j = i
          · subst hji
            simp
          · simp only [if_neg hji]
            rw [hlink j hj]
            simp [hji]
        · simp [queueStep, hi, hph, hff]
      | awaitGate =>
        cases hff : st.flushFired with
        | false =>
          have hid : queueStep hits st (QChoice.item i) = st := by
            simp [queueStep, hi, hph, hff]
          rw [hid]
          exact ⟨cks, runs, htr, hcks, hruns, hlink, hfin⟩
        | true =>
          have hstep : queueStep hits st (QChoice.item i) =
              { phases := fun j => if j = i then ItemPhase.done else st.phases j
                flushFired := st.flushFired
                trace := st.trace ++
                  (if hits.getD i false then [] else [QEvent.runStart i]) } := by
            simp [queueStep, hi, hph, hff]
          rw [hstep]
          refine ⟨cks, runs ++ (if hits.getD i false then [] else [QEvent.runStart i]),
            ?_, hcks, ?_, ?_, ?_⟩
          · simp [htr, hff]
          · intro ev hev
            rcases List.mem_append.mp hev with h1 | h1
            · exact hruns ev h1
            · cases hh : hits.getD i false
              · rw [hh] at h1
                rw [List.mem_singleton.mp h1]
                exact ⟨i, rfl, hh⟩
              · rw [hh] at h1
                cases h1
          · intro j hj
            by_cases hji : j = i
            · subst hji
              have h1 : QEvent.checked j (hits.getD j false) ∈ cks := by
                by_contra hc
                exact absurd ((hlink j hj).mpr hc) (by rw [hph]; intro hx; cases hx)
              refine iff_of_false ?_ (fun hc => hc h1)
              simp
            · show (if j = i then ItemPhase.done else st.phases j) = ItemPhase.toCheck ↔ _
              rw [if_neg hji]
              exact hlink j hj
          · intro hq j hj
            by_cases hji : j = i
            · subst hji
              show ¬(if j = j then ItemPhase.done else st.phases j) = ItemPhase.toCheck
              simp
            · show ¬(if j = i then ItemPhase.done else st.phases j) = ItemPhase.toCheck
              rw [if_neg hji]
              exact hfin hff j hj
      | done =>
        have hid : queueStep hits st (QChoice.item i) = st := by
          simp [queueStep, hi, hph]
        rw [hid]
        exact ⟨cks, runs, htr, hcks, hruns, hlink, hfin⟩
    · have hid : queueStep hits st (QChoice.item i) = st := by
        simp [queueStep, hi]
      rw [hid]
      exact ⟨cks, runs, htr, hcks, hruns, hlink, hfin⟩
  | flushTask =>
    by_cases hcond : ¬st.flushFired = true ∧ ∀ j < hits.length, st.phases j ≠ ItemPhase.toCheck
    · have hff : st.flushFired = false := by
        cases hq : st.flushFired
        · rfl
        · exact absurd hq hcond.1
      have hstep : queueStep hits st QChoice.flushTask =
          { phases := st.phases, flushFired := true,
            trace := st.trace ++ [flushPayload hits, QEvent.released] } := by
        simp only [queueStep, flushPayload]
        rw [if_pos hcond]
      rw [hstep]
      refine ⟨cks, [], ?_, hcks, by simp, ?_, ?_⟩
      · simp [htr, hff]
      · intro j hj
        exact hlink j hj
      · intro hq j hj
        exact hcond.2 j hj
    · have hid : queueStep hits st QChoice.flushTask = st := by
        simp only [queueStep]
        rw [if_neg hcond]
      rw [hid]
      exact ⟨cks, runs, htr, hcks, hruns, hlink, hfin⟩

lemma queueExec_shape (hits : List Bool) (cs : List QChoice) :
    QShape hits (queueExec hits cs) := by
  unfold queueExec
  suffices h : ∀ st, QShape hits st → QShape hits (cs.foldl (queueStep hits) st) by
    exact h qInit (qInit_shape hits)
  induction cs with
  | nil => exact fun st h => h
  | cons c cs ih => exact fun st h => ih _ (queueStep_shape hits st c h)

/-- Sanity check: the canonical schedule for two items (one hit, one miss)
produces exactly the expected trace. -/
lemma queueExec_canonical_trace :
    (queueExec [true, false]
      [.item 0, .item 1, .flushTask, .item 0, .item 1]).trace =
      [.checked 0 true, .checked 1 false,
       .flushEmit 2 1 1, .released, .runStart 1] := rfl

lemma hexChar_notSep : ∀ i : Fin 16, notSep (hexChar i) = true := by decide

lemma toHexFixed_notSep (v d : Nat) :
    ∀ c ∈ toHexFixed v d, notSep c = true := by
  induction d generalizing v with
  | zero => intro c hc; cases hc
  | succ d ih =>
    intro c hc
    unfold toHexFixed at hc
    rcases List.mem_append.mp hc with h1 | h1
    · exact ih _ c h1
    · rw [List.mem_singleton.mp h1]
      exact hexChar_notSep _

lemma sha1Hex_notSep (st : Sha1St) : ∀ c ∈ sha1Hex st, notSep c = true := by
  unfold sha1Hex
  intro c hc
  rcases List.mem_append.mp hc with h1 | h1
  · rcases List.mem_append.mp h1 with h2 | h2
    · rcases List.mem_append.mp h2 with h3 | h3
      · rcases List.mem_append.mp h3 with h4 | h4
        · exact toHexFixed_notSep _ _ c h4
        · exact toHexFixed_notSep _ _ c h4
      · exact toHexFixed_notSep _ _ c h3
    · exact toHexFixed_notSep _ _ c h2
  · exact toHexFixed_notSep _ _ c h1

lemma sha1_data_notSep (s : String) : ∀ c ∈ (sha1 s).data, notSep c = true := by
  intro c hc
  exact sha1Hex_notSep _ c hc

lemma takeWhile_append_all (p : Char → Bool) (l1 l2 : List Char)
    (h : ∀ c ∈ l1, p c = true) :
    (l1 ++ l2).takeWhile p = l1 ++ l2.takeWhile p := by
  induction l1 with
  | nil => simp
  | cons a l ih =>
    simp only [List.cons_append, List.takeWhile_cons]
    rw [h a (by simp)]
    simp only [if_true]
    rw [ih (fun c hc => h c (by simp [hc]))]

lemma entryKeyOf_eq_key (key : String) (suffix : String)
    (hkey : ∀ c ∈ key.data, notSep c = true)
    (hsep : suffix.data.takeWhile notSep = []) :
    entryKeyOf (key ++ suffix) = key := by
  unfold entryKeyOf
  have hdata : (key ++ suffix).data = key.data ++ suffix.data := String.data_append key suffix
  rw [hdata]
  show String.mk ((key.data ++ suffix.data).takeWhile notSep) = key
  rw [takeWhile_append_all notSep _ _ hkey, hsep]
  apply String.ext
  simp

lemma entryKeyOf_record (s : String) : entryKeyOf (recordFileName (sha1 s)) = sha1 s := by
  unfold recordFileName
  exact entryKeyOf_eq_key (sha1 s) ".json" (sha1_data_notSep s) rfl

lemma entryKeyOf_artifact (s : String) (name : String) :
    entryKeyOf (artifactFileName (sha1 s) name) = sha1 s := by
  unfold artifactFileName
  rw [String.append_assoc]
  refine entryKeyOf_eq_key (sha1 s) ("-" ++ name) (sha1_data_notSep s) ?_
  rw [String.data_append]
  rfl

lemma addKey_mem (l : List String) (k : String) : k ∈ addKey l k := by
  unfold addKey
  by_cases h : l.contains k
  · rw [if_pos h]
    simpa using h
  · rw [if_neg h]
    exact List.mem_cons_self k l

/-! ## Claim theorems -/

/-- C1.  For a fixed class (version and key selection) and fixed arguments,
with no observed-file changes in between and no prior record for the key,
calling twice invokes `run()` exactly once (first call yes, second call no);
the second call is a cache hit settling to the memoized record read back
from the cache.  Moreover the cache key is a pure function of the library
format version, the computation version and the derived input, so both
calls (and any calls with equal version and derived input) address the same
cache entry. -/
theorem claim1_second_call_memoized
    (cls : BuildClass) (w : World) (args : List JValue)
    (hAfter : cls.afterFn = none)
    (hWrite : w.writeOk = true)
    (hMiss : alGet w.store (deriveCacheKey cls args) = none) :
    (callOnce cls w args).1.ranRun = true ∧
    (callAgain cls w args).1.ranRun = false ∧
    (callAgain cls w args).1.checkedCache = some true ∧
    (callAgain cls w args).1.outcome =
      some (.ok (settleOf (deserializeResult
        (serializeResult (callRunFn cls.runSpec w.fs args))))) ∧
    (∀ (v v' : JSVersion) (i i' : JValue), versionToString v = versionToString v' →
      hashInputToString i = hashInputToString i' →
      deriveKeyOfInput v i = deriveKeyOfInput v' i') := by
  refine ⟨?_, ?_, ?_, ?_, ?_⟩
  · simp [callOnce, engineCall, callStart, runBody, missBody, addKey, alGet, alDel,
      hAfter, hWrite, hMiss, alGet_alSet_self, observedFiles_roundtrip,
      callRunFn_observedFiles, detectChanges_mkObservedFiles]
  · simp [callAgain, callOnce, engineCall, callStart, runBody, missBody, addKey, alGet, alDel,
      hAfter, hWrite, hMiss, alGet_alSet_self, observedFiles_roundtrip,
      callRunFn_observedFiles, detectChanges_mkObservedFiles]
  · simp [callAgain, callOnce, engineCall, callStart, runBody, missBody, addKey, alGet, alDel,
      hAfter, hWrite, hMiss, alGet_alSet_self, observedFiles_roundtrip,
      callRunFn_observedFiles, detectChanges_mkObservedFiles]
  · simp [callAgain, callOnce, engineCall, callStart, runBody, missBody, addKey, alGet, alDel,
      hAfter, hWrite, hMiss, alGet_alSet_self, observedFiles_roundtrip,
      callRunFn_observedFiles, detectChanges_mkObservedFiles]
  · intro v v' i i' h1 h2
    unfold deriveKeyOfInput
    rw [h1, h2]

/-- C2.  A second call with the same derived input and version, started
before the first call's body settles, is handed the very same in-flight
promise handle; it spawns no body of its own, so the single spawned body is
the only one that can invoke `run()` — and on a cache miss that body invokes
it exactly once. -/
theorem claim2_single_flight
    (cls : BuildClass) (w : World) (args args' : List JValue)
    (hk : deriveCacheKey cls args' = deriveCacheKey cls args) :
    (∃ h, (callStart cls {} args).1 = .fresh h ∧
      (callStart cls (callStart cls {} args).2.2 args').1 = .existing h) ∧
    spawnsBody (callStart cls (callStart cls {} args).2.2 args').1 = false ∧
    (alGet w.store (deriveCacheKey cls args) = none →
      (runBody cls w (callStart cls {} args).2.1 args).out.ranRun = true) := by
  refine ⟨⟨0, ?_, ?_⟩, ?_, ?_⟩
  · simp [callStart, alGet]
  · simp [callStart, alGet, addKey, hk]
  · simp [callStart, alGet, addKey, hk, spawnsBody]
  · intro hMiss
    unfold runBody
    simp only [callStart, alGet, addKey]
    simp [hMiss, missBody_ranRun]

/-- C3.  Code-bug evidence: when a stored entry is found but one of its
observed files has vanished, `fileFingerprint`'s stat rejection escapes
`detectChanges` and rejects the whole call (`statCrash`) — `run()` is never
invoked, no `checkedCache` event fires, and the in-flight entry leaks —
instead of the entry being demoted to a cache miss with recomputation as the
specification states. -/
theorem claim3_vanished_file_rejects_call :
    detectChanges fsNone [{ path := "a.txt", fingerprint := "1,2,3" }] = .error () ∧
    (engineCall clsAdd vanishedWorld {} [.num 1]).1.outcome = some (.error .statCrash) ∧
    (engineCall clsAdd vanishedWorld {} [.num 1]).1.ranRun = false ∧
    (engineCall clsAdd vanishedWorld {} [.num 1]).1.checkedCache = none ∧
    alGet (engineCall clsAdd vanishedWorld {} [.num 1]).2.1.inFlight
      (deriveCacheKey clsAdd [.num 1]) = some 0 :=
  ⟨rfl, rfl, rfl, rfl, rfl⟩

/-- C4 counterexample: observing a nonexistent file records nothing at all in
`observedFiles` (the rejected fingerprint is silently dropped by
`.catch(() => \x7b\x7d)` plus `.filter(x => x)`), so when the file later
reappears the second call still validates the entry as a cache hit and does
not recompute — the claimed "absence is recorded distinctly, so reappearance
invalidates the entry" is false. -/
theorem claim4_counterexample :
    (callRunFn obsRun.runSpec fsNone []).observedFiles = [] ∧
    obsCall2.1.checkedCache = some true ∧
    obsCall2.1.ranRun = false :=
  ⟨rfl, rfl, rfl⟩

/-- C4 (amended).  `observe(path)` returns its argument unchanged and a
missing file does not fail the operation (the outcome state is exactly the
captured `run()` outcome); however the absence is not recorded — no entry
with that path appears in `observedFiles` — and consequently a later
reappearance of the file is not detected: validation is unaffected by any
path outside the recorded `observedFiles`. -/
theorem claim4_observe_tolerates_missing
    (rs : List JValue → FS → RunBehavior) (fs fs' : FS) (args : List JValue)
    (p : String) (obs : List ObservedFile)
    (hMissing : fs p = none)
    (hNotRecorded : p ∉ obs.map ObservedFile.path)
    (hOnly : ∀ q, q ≠ p → fs' q = fs q) :
    (∀ (recorded : List String) (q : String), (observeCap recorded q).1 = q) ∧
    p ∉ (callRunFn rs fs args).observedFiles.map ObservedFile.path ∧
    (callRunFn rs fs args).state =
      (match (rs args fs).outcome with
       | .ok _ => RState.fulfilled
       | .error _ => RState.rejected) ∧
    detectChanges fs' obs = detectChanges fs obs := by
  refine ⟨fun recorded q => rfl, ?_, ?_, ?_⟩
  · intro hmem
    rw [callRunFn_observedFiles] at hmem
    simp only [mkObservedFiles, List.mem_map, List.mem_filterMap] at hmem
    obtain ⟨of, ⟨a, ha, hfa⟩, hpath⟩ := hmem
    cases hf : fileFingerprint fs a with
    | ok fp =>
      rw [hf] at hfa
      cases hfa
      have hap : a = p := hpath
      subst hap
      unfold fileFingerprint at hf
      rw [hMissing] at hf
      cases hf
    | error e =>
      rw [hf] at hfa
      cases hfa
  · unfold callRunFn
    cases h : (rs args fs).outcome <;> simp [h]
  · induction obs with
    | nil => rfl
    | cons f rest ih =>
      simp only [List.map_cons, List.mem_cons] at hNotRecorded
      push_neg at hNotRecorded
      obtain ⟨h1, h2⟩ := hNotRecorded
      have hfs : fs' f.path = fs f.path := hOnly f.path (fun hc => h1 hc.symm)
      unfold detectChanges
      rw [show fileFingerprint fs' f.path = fileFingerprint fs f.path from by
        unfold fileFingerprint; rw [hfs]]
      rw [ih h2]

/-- C5.  With `outputConsistency` enabled, the settlement a caller observes
from the fresh computation equals the settlement observed from the
subsequent cache hit for the same input: the miss path re-decodes the
just-encoded record and settles to the decoded value, which is exactly what
the hit path later reads back, so both pass through one identical JSON
encode/decode cycle (the optional `after()` transform, being applied to the
same decoded value on both paths, preserves the equality). -/
theorem claim5_output_consistency
    (cls : BuildClass) (w : World) (args : List JValue)
    (hOC : cls.outputConsistency = true)
    (hWrite : w.writeOk = true)
    (hMiss : alGet w.store (deriveCacheKey cls args) = none) :
    (callOnce cls w args).1.outcome = (callAgain cls w args).1.outcome ∧
    (callOnce cls w args).1.checkedCache = some false ∧
    (callAgain cls w args).1.checkedCache = some true := by
  refine ⟨?_, ?_, ?_⟩ <;>
    simp [callAgain, callOnce, engineCall, callStart, runBody, missBody, addKey, alGet,
      alDel, hOC, hWrite, hMiss, alGet_alSet_self, observedFiles_roundtrip,
      callRunFn_observedFiles, detectChanges_mkObservedFiles]

/-- C6 counterexample.  Serializing and deserializing a rejected record does
not drop the stack trace: `serialize-error` stores the stack string and
`Object.assign(new Error(), \x7b stack: undefined \x7d, data)` restores it
(the `undefined` is overwritten by `data.stack`).  In addition, a falsy
non-`Error` reason (here `0`) does not round-trip byte-for-byte: the
`if (result.reason)` guard drops it entirely and it deserializes to
`undefined`. -/
theorem claim6_counterexample :
    (deserializeResult (serializeResult rejectedErrRec)).reason =
      some (.jsErr { name := "Error", message := "boom", stack := some "trace-line",
                     props := [] }) ∧
    (deserializeResult (serializeResult rejectedZeroRec)).reason = none :=
  ⟨rfl, rfl⟩

/-- C6 (amended).  Round-trip of a rejected record's reason: a structured
`Error` reason is restored as an object carrying the same `name`, `message`
and custom JSON-representable properties — and the same stack string, the
deserializer's fresh capture stack being discarded in its favour; a truthy
non-`Error` reason is restored JSON-equal; a falsy reason (`0`, `''`,
`false`, `null`) is dropped by the serializer's truthiness guard and
deserializes to `undefined`.  The record's `value` and `state` always
round-trip unchanged. -/
theorem claim6_reason_roundtrip (r : ResRec) :
    (∀ e : JSErr, r.reason = some (.jsErr e) →
      (∀ q ∈ e.props, q.1 ≠ "name" ∧ q.1 ≠ "message" ∧ q.1 ≠ "stack") →
      (e.props.map Prod.fst).Nodup →
      (deserializeResult (serializeResult r)).reason = some (.jsErr e)) ∧
    (∀ v : JValue, r.reason = some (.jsVal v) → jsTruthy v = true →
      (deserializeResult (serializeResult r)).reason = some (.jsVal v)) ∧
    (∀ v : JValue, r.reason = some (.jsVal v) → jsTruthy v = false →
      (deserializeResult (serializeResult r)).reason = none) ∧
    (deserializeResult (serializeResult r)).value = r.value ∧
    (deserializeResult (serializeResult r)).state = r.state := by
  refine ⟨?_, ?_, ?_, value_roundtrip r, state_roundtrip r⟩
  · intro e hr hres hnd
    simp [serializeResult, deserializeResult, hr, reasonTruthy,
      restoreError_serializeError e hres hnd]
  · intro v hr htr
    simp [serializeResult, deserializeResult, hr, reasonTruthy, htr]
  · intro v hr htr
    simp [serializeResult, deserializeResult, hr, reasonTruthy, htr]

/-- Witness for the amended C6 round-trip at concrete inputs. -/
theorem claim6_reason_roundtrip_witness :
    (deserializeResult (serializeResult rejectedCodeRec)).reason =
      some (.jsErr errNoStack) ∧
    (deserializeResult (serializeResult rejectedWhyRec)).reason =
      some (.jsVal (.str "why")) :=
  ⟨(claim6_reason_roundtrip rejectedCodeRec).1 errNoStack rfl
      (by simp [errNoStack]) (by simp [errNoStack]),
   (claim6_reason_roundtrip rejectedWhyRec).2.1 (.str "why") rfl rfl⟩

/-- C8 counterexample: when persisting the result fails, the call settles
(rejected with the write error at `await wroteToCache`) yet the in-flight
registry still contains the key — the entry is not removed "regardless of
outcome". -/
theorem claim8_counterexample :
    (engineCall clsAdd failWriteWorld {} [.num 1]).1.outcome = some (.error .writeCrash) ∧
    alGet (engineCall clsAdd failWriteWorld {} [.num 1]).2.1.inFlight
      (deriveCacheKey clsAdd [.num 1]) = some 0 :=
  ⟨rfl, rfl⟩

/-- C8 (amended).  The in-flight entry for the key is created at call start,
and it is removed exactly when the body settles through the normal hit or
miss path — which includes captured `run()`/`after()` rejections — but not
when the body rejects exceptionally: a stat rejection during fingerprint
validation or a persistence failure leaves the entry registered. -/
theorem claim8_inflight_lifecycle :
    (∀ (cls : BuildClass) (eng : Engine) (args : List JValue),
      alGet eng.inFlight (deriveCacheKey cls args) = none →
      alGet ((callStart cls eng args).2.2).inFlight (deriveCacheKey cls args) = some eng.nextH) ∧
    (∀ (cls : BuildClass) (w : World) (key : String) (args : List JValue),
      (runBody cls w key args).inFlightDeleted = true ↔
        ∃ s, (runBody cls w key args).out.outcome = Except.ok s) := by
  constructor
  · intro cls eng args h
    simp [callStart, h, alGet]
  · intro cls w key args
    unfold runBody missBody
    cases hstore : alGet w.store key with
    | none =>
      simp only [hstore]
      cases hw : w.writeOk <;> simp [hw]
    | some text =>
      simp only [hstore]
      cases hd : detectChanges w.fs (deserializeResult text).observedFiles with
      | error e => simp [hd]
      | ok changed =>
        cases changed
        · simp [hd]
        · simp only [hd]
          cases hw : w.writeOk <;> simp [hw]

/-- C7.  Queue/flush semantics, quantified over every scheduler
interleaving: the trace of a queue of `N = hits.length` enqueued items
consists of per-item `checkedCache` events, then — if flush's continuation
has run — exactly one aggregate `checkedCache` emission whose payload
satisfies `count = N` and `cacheHitCount + cacheMissCount = count`, followed
immediately by the gate release, followed only by `run()` starts of missed
items; when the aggregate event has been emitted, every item's check event
precedes it.  In particular no withheld `run()` for a missed item begins
before flush executes. -/
theorem claim7_flush_batch_semantics (hits : List Bool) (cs : List QChoice) :
    ∃ cks runs,
      (queueExec hits cs).trace = cks ++ (if (queueExec hits cs).flushFired then
        QEvent.flushEmit hits.length (countHits hits) (hits.length - countHits hits)
          :: QEvent.released :: runs else []) ∧
      countHits hits + (hits.length - countHits hits) = hits.length ∧
      (∀ ev ∈ cks, ∃ i, i < hits.length ∧ ev = QEvent.checked i (hits.getD i false)) ∧
      (∀ ev ∈ runs, ∃ i, ev = QEvent.runStart i ∧ hits.getD i false = false) ∧
      ((queueExec hits cs).flushFired = true →
        ∀ i, i < hits.length → QEvent.checked i (hits.getD i false) ∈ cks) := by
  obtain ⟨cks, runs, htr, hcks, hruns, hlink, hfin⟩ := queueExec_shape hits cs
  refine ⟨cks, runs, by simpa [flushPayload] using htr, ?_, hcks, hruns, ?_⟩
  · have h := List.length_filter_le id hits
    unfold countHits
    omega
  · intro hq i hi
    have h1 := hfin hq i hi
    by_contra hc
    exact h1 ((hlink i hi).mpr hc)

/-- C9.  `cleanUnused()` deletes exactly the on-disk entries whose key part
is not in the Used-Key Set, and keeps exactly those whose key part is in it;
the key part of both a result record file and an auxiliary artifact file is
the cache key itself (a SHA-1 hex digest contains no `.` or `-`); and every
call — hit, miss, or deduplicated — records its derived key in the Used-Key
Set at call start, so every entry whose key was looked up during the
instance's lifetime survives the cleanup. -/
theorem claim9_cleanUnused_exact (usedKeys listing : List String) :
    (∀ e, e ∈ cleanUnusedRemoved usedKeys listing ↔
      (e ∈ listing ∧ entryKeyOf e ∉ usedKeys)) ∧
    (∀ e, e ∈ cleanUnusedKept usedKeys listing ↔
      (e ∈ listing ∧ entryKeyOf e ∈ usedKeys)) ∧
    (∀ s name, entryKeyOf (recordFileName (sha1 s)) = sha1 s ∧
      entryKeyOf (artifactFileName (sha1 s) name) = sha1 s) ∧
    (∀ (cls : BuildClass) (eng : Engine) (args : List JValue),
      deriveCacheKey cls args ∈ ((callStart cls eng args).2.2).usedCacheKeys) := by
  refine ⟨?_, ?_, fun s name => ⟨entryKeyOf_record s, entryKeyOf_artifact s name⟩, ?_⟩
  · intro e
    simp [cleanUnusedRemoved, List.mem_filter]
  · intro e
    simp [cleanUnusedKept, List.mem_filter]
  · intro cls eng args
    unfold callStart
    cases halg : alGet eng.inFlight (deriveCacheKey cls args) <;>
      simp [halg, addKey_mem]

/-- C10.  Key derivation is not injective on derived inputs: a string hash
input is used verbatim while any other value is JSON-stringified first, so
the number `1` and the string `"1"` (and likewise the array `[1,2]` and the
string `"[1,2]"`) canonicalize to the same text and derive the same cache
key, although the inputs are distinct values; two classes whose `cacheKey`
selectors return such a pair therefore share one cache entry. -/
theorem claim10_key_not_injective :
    hashInputToString (.num 1) = hashInputToString (.str "1") ∧
    JValue.num 1 ≠ JValue.str "1" ∧
    deriveKeyOfInput (.vnum 1) (.num 1) = deriveKeyOfInput (.vnum 1) (.str "1") ∧
    hashInputToString (.arr [.num 1, .num 2]) = hashInputToString (.str "[1,2]") ∧
    JValue.arr [.num 1, .num 2] ≠ JValue.str "[1,2]" ∧
    deriveKeyOfInput (.vnum 1) (.arr [.num 1, .num 2]) =
      deriveKeyOfInput (.vnum 1) (.str "[1,2]") ∧
    deriveCacheKey cls10num [] = deriveCacheKey cls10str [] := by
  refine ⟨rfl, ?_, rfl, rfl, ?_, rfl, rfl⟩
  · intro h
    cases h
  · intro h
    cases h

/-! ## Witnesses: the claim theorems applied at concrete inputs -/

/-- Witness instantiating the C1 theorem at a concrete class and world. -/
theorem claim1_witness :
    (callOnce clsAdd wEmpty [.num 3]).1.ranRun = true ∧
    (callAgain clsAdd wEmpty [.num 3]).1.ranRun = false := by
  have h := claim1_second_call_memoized clsAdd wEmpty [.num 3] rfl rfl rfl
  exact ⟨h.1, h.2.1⟩

/-- Witness instantiating the C2 theorem at a concrete class. -/
theorem claim2_witness :
    spawnsBody (callStart clsAdd (callStart clsAdd {} [.num 2]).2.2 [.num 2]).1 = false ∧
    (runBody clsAdd wEmpty (callStart clsAdd {} [.num 2]).2.1 [.num 2]).out.ranRun = true := by
  have h := claim2_single_flight clsAdd wEmpty [.num 2] [.num 2] rfl
  exact ⟨h.2.1, h.2.2 rfl⟩

/-- Witness instantiating the amended C4 theorem at a concrete scenario. -/
theorem claim4_witness :
    "f.txt" ∉ (callRunFn obsRun.runSpec fsNone []).observedFiles.map ObservedFile.path ∧
    detectChanges fsWithF [] = detectChanges fsNone [] := by
  have h := claim4_observe_tolerates_missing obsRun.runSpec fsNone fsWithF [] "f.txt" []
    rfl (by simp) (fun q hq => by simp [fsWithF, fsNone, hq])
  exact ⟨h.2.1, h.2.2.2⟩

/-- Witness instantiating the C5 theorem at a concrete class and world. -/
theorem claim5_witness :
    (callOnce clsAdd wEmpty [.num 4]).1.outcome =
      (callAgain clsAdd wEmpty [.num 4]).1.outcome :=
  (claim5_output_consistency clsAdd wEmpty [.num 4] rfl rfl rfl).1

/-- Witness instantiating the C7 theorem at a concrete queue and schedule. -/
theorem claim7_witness :
    countHits [true, false] + ([true, false].length - countHits [true, false]) =
      [true, false].length := by
  obtain ⟨cks, runs, _, h, _, _, _⟩ := claim7_flush_batch_semantics [true, false]
    [.item 0, .item 1, .flushTask, .item 0, .item 1]
  exact h

/-- Witness instantiating the amended C8 theorem at concrete inputs. -/
theorem claim8_witness :
    alGet ((callStart clsAdd {} [.num 9]).2.2).inFlight
      (deriveCacheKey clsAdd [.num 9]) = some 0 ∧
    (runBody clsAdd wEmpty (deriveCacheKey clsAdd [.num 9]) [.num 9]).inFlightDeleted = true := by
  have h := claim8_inflight_lifecycle
  constructor
  · exact h.1 clsAdd {} [.num 9] rfl
  · exact (h.2 clsAdd wEmpty (deriveCacheKey clsAdd [.num 9]) [.num 9]).mpr ⟨_, rfl⟩

/-- Witness instantiating the C9 theorem at a concrete key and listing. -/
theorem claim9_witness :
    recordFileName (sha1 "x") ∈ cleanUnusedKept [sha1 "x"] [recordFileName (sha1 "x")] := by
  have h := claim9_cleanUnused_exact [sha1 "x"] [recordFileName (sha1 "x")]
  refine (h.2.1 _).mpr ⟨by simp, ?_⟩
  rw [(h.2.2.1 "x" "a").1]
  simp
